import Mathlib

/-!
Verification development for the CashNest personal-finance application.

This file shallowly embeds the balance/recurrence logic of the repository:

* `src/my-app/src/actions/transaction.ts` — `createTransaction`,
  `updateTransaction`, `deleteTransaction`, `calculateNextRecurringDate`;
* `src/my-app/src/actions/accounts.ts` — `bulkDeleteTransaction`;
* `src/my-app/src/lib/inngest/functions.ts` — `processRecurringTransaction`,
  `checkBudgetAlert`, `generateMonthlyReports`, `isNewMonth`,
  `isTransactionDue`, `calculateNextRecurringDate`, `getMonthlyStats`.

Monetary amounts (Prisma `Decimal` / JS numbers holding exact decimal values)
are modelled as rationals.  JavaScript `Date` values are modelled as proleptic
Gregorian calendar dates (year, 1-based month, day); the source's 0-based
`getMonth()` arithmetic is translated to the equivalent 1-based arithmetic.
JavaScript floating-point division producing `Infinity`/`NaN` is modelled by
the `JSNum` type.  Database writes that run inside a `db.$transaction`
callback are modelled as a single pure state transformation; a thrown
exception rolls the transaction back, which is modelled by `Option`/result
values that leave the state unchanged.
-/

namespace CashNest

/-! ## Calendar dates (JavaScript `Date`, date component only) -/

/-- A calendar date: proleptic Gregorian year, 1-based month, 1-based day.
The source uses JavaScript 0-based `getMonth()`; we use 1-based months, so
`setMonth(getMonth() + 1)` corresponds to `setMonthPlus1` below. -/
structure JSDate where
  year : Int
  month : Nat
  day : Nat
deriving DecidableEq, Repr

/-- Gregorian leap year test (as implemented by the JavaScript `Date` object
for its proleptic Gregorian calendar). -/
def isLeapYear (y : Int) : Bool :=
  (y % 4 == 0 && y % 100 != 0) || y % 400 == 0

/-- Number of days in a month (1-based month). -/
def daysInMonth (y : Int) (m : Nat) : Nat :=
  if m = 2 then (if isLeapYear y then 29 else 28)
  else if m = 4 ∨ m = 6 ∨ m = 9 ∨ m = 11 then 30
  else 31

/-- Day-overflow normalization used by the JavaScript `Date` constructor and
setters: while the day exceeds the length of the current month, subtract that
length and advance the month (rolling into the next year after December).
The fuel argument bounds the number of borrows; callers pass the day itself,
which always suffices because every borrow removes at least 28 days. -/
def normDay : Nat → Int → Nat → Nat → JSDate
  | 0, y, m, d => ⟨y, m, d⟩
  | fuel + 1, y, m, d =>
    if d > daysInMonth y m then
      if m ≥ 12 then normDay fuel (y + 1) 1 (d - daysInMonth y m)
      else normDay fuel y (m + 1) (d - daysInMonth y m)
    else ⟨y, m, d⟩

/-- `new Date(y, m, d)` for day values `d ≥ 1` (day overflow rolls into the
following months, exactly as JavaScript normalizes date components). -/
def mkDate (y : Int) (m : Nat) (d : Nat) : JSDate :=
  normDay d y m d

/-- `date.setDate(date.getDate() + n)`. -/
def setDatePlus (dt : JSDate) (n : Nat) : JSDate :=
  mkDate dt.year dt.month (dt.day + n)

/-- `date.setMonth(date.getMonth() + 1)` (with JavaScript rollover: a day
beyond the end of the target month rolls into the following month). -/
def setMonthPlus1 (dt : JSDate) : JSDate :=
  if dt.month ≥ 12 then mkDate (dt.year + 1) 1 dt.day
  else mkDate dt.year (dt.month + 1) dt.day

/-- `date.setMonth(date.getMonth() - 1)` (used for the previous-month window
of the monthly report). -/
def setMonthMinus1 (dt : JSDate) : JSDate :=
  if dt.month = 1 then mkDate (dt.year - 1) 12 dt.day
  else mkDate dt.year (dt.month - 1) dt.day

/-- `date.setFullYear(date.getFullYear() + 1)`. -/
def setFullYearPlus1 (dt : JSDate) : JSDate :=
  mkDate (dt.year + 1) dt.month dt.day

/-- Chronological strict order on dates (JavaScript `<` on `Date` values,
restricted to the date component): lexicographic on (year, month, day). -/
def jsltb (a b : JSDate) : Bool :=
  decide (a.year < b.year) ||
    (decide (a.year = b.year) &&
      (decide (a.month < b.month) ||
        (decide (a.month = b.month) && decide (a.day < b.day))))

/-- Chronological order `a <= b` on dates (JavaScript `<=` on `Date`). -/
def jsleb (a b : JSDate) : Bool :=
  jsltb a b || decide (a = b)

/-- A structurally well-formed calendar date. -/
def ValidDate (d : JSDate) : Prop :=
  1 ≤ d.month ∧ d.month ≤ 12 ∧ 1 ≤ d.day ∧ d.day ≤ daysInMonth d.year d.month

instance (d : JSDate) : Decidable (ValidDate d) := by
  unfold ValidDate; infer_instance

/-! ## Recurrence intervals and the two `calculateNextRecurringDate` copies -/

/-- The value switched on by `calculateNextRecurringDate`.  The database enum
has exactly four values, but the source casts (`as RecurringInterval`), so an
out-of-range tag can reach the switch at runtime; `other` models such a tag. -/
inductive IntervalTag where
  | DAILY
  | WEEKLY
  | MONTHLY
  | YEARLY
  | other (tag : String)
deriving DecidableEq, Repr

/-- Whether a tag is one of the four database enum values. -/
def IntervalTag.isKnown : IntervalTag → Bool
  | .other _ => false
  | _ => true

namespace Inngest

/-- `calculateNextRecurringDate` from `src/my-app/src/lib/inngest/functions.ts`:
the switch has a `default` case that throws `Unsupported interval`. -/
def calculateNextRecurringDate (date : JSDate) (interval : IntervalTag) :
    Except String JSDate :=
  match interval with
  | .DAILY => .ok (setDatePlus date 1)
  | .WEEKLY => .ok (setDatePlus date 7)
  | .MONTHLY => .ok (setMonthPlus1 date)
  | .YEARLY => .ok (setFullYearPlus1 date)
  | .other tag => .error ("Unsupported interval: " ++ tag)

end Inngest

namespace Actions

/-- `calculateNextRecurringDate` from `src/my-app/src/actions/transaction.ts`:
the switch has no `default` case, so an unrecognized tag falls through and the
copied date is returned unchanged (the function cannot throw). -/
def calculateNextRecurringDate (startDate : JSDate) (interval : IntervalTag) :
    JSDate :=
  match interval with
  | .DAILY => setDatePlus startDate 1
  | .WEEKLY => setDatePlus startDate 7
  | .MONTHLY => setMonthPlus1 startDate
  | .YEARLY => setFullYearPlus1 startDate
  | .other _ => startDate

end Actions

/-! ## JavaScript numbers for the budget-percentage computation -/

/-- JavaScript floating-point numbers as far as the budget computation needs
them: an exact value, the two infinities, or `NaN`.  (The repository's
monetary values are exact decimals, so `num` carries a rational.) -/
inductive JSNum where
  | num (q : ℚ)
  | posInf
  | negInf
  | nan
deriving DecidableEq, Repr

/-- IEEE-754 division as JavaScript performs it, on the `JSNum` fragment:
division of a nonzero value by zero yields a signed infinity and `0 / 0`
yields `NaN`. -/
def JSNum.div : JSNum → JSNum → JSNum
  | nan, _ => nan
  | _, nan => nan
  | num a, num b =>
    if b = 0 then (if 0 < a then posInf else if a < 0 then negInf else nan)
    else num (a / b)
  | num _, posInf => num 0
  | num _, negInf => num 0
  | posInf, num b => if b < 0 then negInf else posInf
  | negInf, num b => if b < 0 then posInf else negInf
  | posInf, _ => nan
  | negInf, _ => nan

/-- IEEE-754 multiplication on the `JSNum` fragment. -/
def JSNum.mul : JSNum → JSNum → JSNum
  | nan, _ => nan
  | _, nan => nan
  | num a, num b => num (a * b)
  | posInf, num b => if 0 < b then posInf else if b < 0 then negInf else nan
  | num a, posInf => if 0 < a then posInf else if a < 0 then negInf else nan
  | negInf, num b => if 0 < b then negInf else if b < 0 then posInf else nan
  | num a, negInf => if 0 < a then negInf else if a < 0 then posInf else nan
  | posInf, posInf => posInf
  | posInf, negInf => negInf
  | negInf, posInf => negInf
  | negInf, negInf => posInf

/-- JavaScript `>=`: any comparison involving `NaN` is false; `Infinity` is
greater than or equal to every non-`NaN` value. -/
def JSNum.geb : JSNum → JSNum → Bool
  | nan, _ => false
  | _, nan => false
  | posInf, _ => true
  | _, posInf => false
  | _, negInf => true
  | negInf, _ => false
  | num a, num b => decide (b ≤ a)

/-- JavaScript `Number.isFinite`. -/
def JSNum.isFinite : JSNum → Bool
  | num _ => true
  | _ => false

/-! ## Data model (Prisma schema fragment used by the verified logic) -/

inductive TransactionType where
  | INCOME
  | EXPENSE
deriving DecidableEq, Repr

inductive TransactionStatus where
  | COMPLETED
  | PENDING
  | CANCELLED
deriving DecidableEq, Repr

inductive AccountType where
  | CURRENT
  | SAVINGS
deriving DecidableEq, Repr

/-- An `Account` row (fields used by the verified logic). -/
structure Account where
  id : String
  name : String
  accType : AccountType
  balance : ℚ
  isDefault : Bool
  userId : String
deriving DecidableEq, Repr

/-- A `Transaction` row (fields used by the verified logic). -/
structure Txn where
  id : String
  txnType : TransactionType
  amount : ℚ
  description : String
  date : JSDate
  category : String
  isRecurring : Bool
  recurringInterval : Option IntervalTag
  nextRecurringDate : Option JSDate
  lastProcessed : Option JSDate
  status : TransactionStatus
  userId : String
  accountId : String
deriving DecidableEq, Repr

/-- The database state acted on by the transaction/balance logic. -/
structure DBState where
  accounts : List Account
  transactions : List Txn
deriving DecidableEq, Repr

/-- The signed contribution of a transaction to its account balance:
income counts positive, expense counts negative. -/
def signedAmount (t : Txn) : ℚ :=
  match t.txnType with
  | .EXPENSE => -t.amount
  | .INCOME => t.amount

/-- The contribution of one transaction to the signed sum for account
`accId` (zero when the transaction belongs to another account). -/
def contribution (t : Txn) (accId : String) : ℚ :=
  if t.accountId = accId then signedAmount t else 0

/-- Signed sum of the transactions of account `accId`. -/
def accountTxnSum (txns : List Txn) (accId : String) : ℚ :=
  (txns.map (fun t => contribution t accId)).sum

/-- The source's ternary `type === "EXPENSE" ? -amount : amount` used when a
transaction is applied to its account. -/
def balanceChangeOf (txnType : TransactionType) (amount : ℚ) : ℚ :=
  match txnType with
  | .EXPENSE => -amount
  | .INCOME => amount

/-- The source's ternary `type === "EXPENSE" ? amount : -amount` used when a
transaction's effect is reversed (update/delete paths). -/
def reverseBalanceChangeOf (txnType : TransactionType) (amount : ℚ) : ℚ :=
  match txnType with
  | .EXPENSE => amount
  | .INCOME => -amount

/-- The balance invariant of the specification: every account's stored
balance equals the signed sum of that account's transactions. -/
def BalanceInvariant (s : DBState) : Prop :=
  ∀ a ∈ s.accounts, a.balance = accountTxnSum s.transactions a.id

/-! ## List helpers mirroring the Prisma queries and writes -/

/-- `db.transaction.findUnique({ where: { id, userId } })`: first transaction
matching both the id and the owning user. -/
def findTxn : List Txn → String → String → Option Txn
  | [], _, _ => none
  | t :: rest, i, u =>
    if t.id = i ∧ t.userId = u then some t else findTxn rest i u

/-- `db.account.findUnique({ where: { id, userId } })`. -/
def findAccount : List Account → String → String → Option Account
  | [], _, _ => none
  | a :: rest, i, u =>
    if a.id = i ∧ a.userId = u then some a else findAccount rest i u

/-- Resolving an included relation `account` of a transaction (lookup by
account id alone). -/
def findAccountById : List Account → String → Option Account
  | [], _ => none
  | a :: rest, i => if a.id = i then some a else findAccountById rest i

/-- `db.transaction.findUnique({ where: { id } })`: first transaction with
the given id. -/
def findTxnById : List Txn → String → Option Txn
  | [], _ => none
  | t :: rest, i => if t.id = i then some t else findTxnById rest i

/-- `tx.transaction.update({ where: { id, userId }, data })`: replace the
first transaction matching id and user by `v`. -/
def replaceFirstTxn : List Txn → String → String → Txn → List Txn
  | [], _, _, _ => []
  | t :: rest, i, u, v =>
    if t.id = i ∧ t.userId = u then v :: rest
    else t :: replaceFirstTxn rest i u v

/-- `tx.transaction.update({ where: { id }, data })`: replace the first
transaction with the given id by `v`. -/
def replaceFirstTxnById : List Txn → String → Txn → List Txn
  | [], _, _ => []
  | t :: rest, i, v =>
    if t.id = i then v :: rest else t :: replaceFirstTxnById rest i v

/-- `tx.transaction.delete({ where: { id, userId } })`: remove the first
transaction matching id and user. -/
def removeFirstTxn : List Txn → String → String → List Txn
  | [], _, _ => []
  | t :: rest, i, u =>
    if t.id = i ∧ t.userId = u then rest else t :: removeFirstTxn rest i u

/-- `tx.account.update({ where: { id }, data: { balance } })`: set the balance
of every account with the given id (the id is unique in the real database). -/
def setBalance (accounts : List Account) (accId : String) (b : ℚ) :
    List Account :=
  accounts.map (fun a => if a.id = accId then { a with balance := b } else a)

/-- `tx.account.update({ where: { id }, data: { balance: { increment } } })`. -/
def incBalance (accounts : List Account) (accId : String) (d : ℚ) :
    List Account :=
  accounts.map
    (fun a => if a.id = accId then { a with balance := a.balance + d } else a)

/-! ## `createTransaction` / `updateTransaction` / `deleteTransaction`
(`src/my-app/src/actions/transaction.ts`) -/

/-- The caller-supplied `TransactionData` input.  Optional fields are
`Option`s; the source applies `|| false`, `|| null`, `|| "COMPLETED"`
defaults, modelled with `Option.getD`. -/
structure TransactionData where
  accountId : String
  amount : ℚ
  txnType : TransactionType
  category : String
  description : String
  date : JSDate
  isRecurring : Option Bool
  recurringInterval : Option IntervalTag
  status : Option TransactionStatus
deriving DecidableEq, Repr

/-- `createTransaction` from `src/my-app/src/actions/transaction.ts`, from the
point where the authenticated user `u` has been resolved.  Authorization,
rate-limit and user-lookup failures throw before any write and are therefore
covered by the `none` (no state change) result.  `freshId` is the id the
database generates for the new row. -/
def createTransaction (s : DBState) (u : String) (freshId : String)
    (data : TransactionData) : Option (DBState × Txn) :=
  match findAccount s.accounts data.accountId u with
  | none => none
  | some account =>
    let balanceChange : ℚ := balanceChangeOf data.txnType data.amount
    let newBalance := account.balance + balanceChange
    let isRec := data.isRecurring.getD false
    let newTxn : Txn :=
      { id := freshId
        txnType := data.txnType
        amount := data.amount
        description := data.description
        date := data.date
        category := data.category
        isRecurring := isRec
        recurringInterval := data.recurringInterval
        nextRecurringDate :=
          match isRec, data.recurringInterval with
          | true, some ivl => some (Actions.calculateNextRecurringDate data.date ivl)
          | _, _ => none
        lastProcessed := none
        status := data.status.getD .COMPLETED
        userId := u
        accountId := data.accountId }
    some ({ accounts := setBalance s.accounts data.accountId newBalance
            transactions := s.transactions ++ [newTxn] },
          newTxn)

/-- `updateTransaction` from `src/my-app/src/actions/transaction.ts`, from
the point where the authenticated user `u` has been resolved.  `none` models
a thrown error (transaction rolled back, no state change). -/
def updateTransaction (s : DBState) (u : String) (i : String)
    (data : TransactionData) : Option DBState :=
  match findTxn s.transactions i u with
  | none => none
  | some originalTransaction =>
    match findAccountById s.accounts originalTransaction.accountId with
    | none => none
    | some originalAccount =>
      let balanceChange : ℚ := balanceChangeOf data.txnType data.amount
      let originalBalanceChange : ℚ :=
        reverseBalanceChangeOf originalTransaction.txnType
          originalTransaction.amount
      let netBalanceChange := balanceChange + originalBalanceChange
      let newBalance := originalAccount.balance + netBalanceChange
      let isRec := data.isRecurring.getD false
      let updatedTxn : Txn :=
        { originalTransaction with
            txnType := data.txnType
            amount := data.amount
            description := data.description
            date := data.date
            category := data.category
            isRecurring := isRec
            recurringInterval := data.recurringInterval
            accountId := data.accountId
            status := data.status.getD .COMPLETED
            nextRecurringDate :=
              match isRec, data.recurringInterval with
              | true, some ivl =>
                some (Actions.calculateNextRecurringDate data.date ivl)
              | _, _ => none }
      let txns := replaceFirstTxn s.transactions i u updatedTxn
      if data.accountId ≠ originalTransaction.accountId then
        match findAccount s.accounts data.accountId u with
        | none => none
        | some newAccount =>
          some
            { transactions := txns
              accounts :=
                setBalance
                  (setBalance s.accounts originalTransaction.accountId
                    (originalAccount.balance + originalBalanceChange))
                  data.accountId (newAccount.balance + balanceChange) }
      else
        some
          { transactions := txns
            accounts := setBalance s.accounts data.accountId newBalance }

/-- `deleteTransaction` from `src/my-app/src/actions/transaction.ts`, from
the point where the authenticated user `u` has been resolved. -/
def deleteTransaction (s : DBState) (u : String) (i : String) :
    Option DBState :=
  match findTxn s.transactions i u with
  | none => none
  | some transaction =>
    match findAccountById s.accounts transaction.accountId with
    | none => none
    | some account =>
      let balanceChange : ℚ :=
        reverseBalanceChangeOf transaction.txnType transaction.amount
      let newBalance := account.balance + balanceChange
      some
        { transactions := removeFirstTxn s.transactions i u
          accounts := setBalance s.accounts transaction.accountId newBalance }

/-- One user-level operation of the claim "any sequence of
createTransaction, updateTransaction and deleteTransaction operations". -/
inductive Op where
  | create (u freshId : String) (data : TransactionData)
  | update (u i : String) (data : TransactionData)
  | delete (u i : String)
deriving DecidableEq, Repr

/-- Apply one operation; a thrown error leaves the database unchanged. -/
def applyOp (s : DBState) : Op → DBState
  | .create u freshId data =>
    match createTransaction s u freshId data with
    | some (s', _) => s'
    | none => s
  | .update u i data => (updateTransaction s u i data).getD s
  | .delete u i => (deleteTransaction s u i).getD s

/-- Apply a sequence of operations. -/
def applyOps (s : DBState) (ops : List Op) : DBState :=
  ops.foldl applyOp s

/-! ## `bulkDeleteTransaction` (`src/my-app/src/actions/accounts.ts`) -/

/-- The transactions selected by
`db.transaction.findMany({ where: { id: { in: ids }, userId } })` (and deleted
by the matching `deleteMany`). -/
def deletedTxns (s : DBState) (u : String) (ids : List String) : List Txn :=
  s.transactions.filter (fun t => decide (t.id ∈ ids ∧ t.userId = u))

/-- The per-account entry of `accountBalanceChanges`: the sum, over the
deleted transactions of account `accId`, of `+amount` for an expense and
`-amount` for an income (reversing each transaction's effect). -/
def bulkReversalDelta (txns : List Txn) (accId : String) : ℚ :=
  (txns.map (fun t =>
    if t.accountId = accId then reverseBalanceChangeOf t.txnType t.amount
    else 0)).sum

/-- `bulkDeleteTransaction` from `src/my-app/src/actions/accounts.ts`, from
the point where the authenticated user `u` has been resolved.  `none` models
the thrown errors (empty id list, no matching transaction); the writes run in
one `db.$transaction`.  Accounts with no deleted transaction receive a zero
increment, which coincides with the source updating only the keys present in
`accountBalanceChanges`. -/
def bulkDeleteTransaction (s : DBState) (u : String) (ids : List String) :
    Option DBState :=
  if ids.isEmpty then none
  else
    let transactions := deletedTxns s u ids
    if transactions.isEmpty then none
    else
      some
        { transactions :=
            s.transactions.filter
              (fun t => decide (¬ (t.id ∈ ids ∧ t.userId = u)))
          accounts :=
            s.accounts.map (fun a =>
              { a with
                  balance := a.balance + bulkReversalDelta transactions a.id }) }

/-! ## `processRecurringTransaction` (`src/my-app/src/lib/inngest/functions.ts`) -/

/-- `isTransactionDue` from `src/my-app/src/lib/inngest/functions.ts`: a
transaction with no `lastProcessed` date is due; otherwise it is due when
`nextRecurringDate <= now`. -/
def isTransactionDue (lastProcessed : Option JSDate)
    (nextRecurringDate : JSDate) (now : JSDate) : Bool :=
  match lastProcessed with
  | none => true
  | some _ => jsleb nextRecurringDate now

/-- Result of one `processRecurringTransaction` run.  `errorThrown` models an
exception escaping the handler (for example the `Unsupported interval` throw
inside the `db.$transaction` callback); the enclosing database transaction is
rolled back, so the state is unchanged in that case. -/
inductive ProcessResult where
  | skipped (reason : String)
  | processed (transactionId : String)
  | errorThrown
deriving DecidableEq, Repr

/-- `processRecurringTransaction` from
`src/my-app/src/lib/inngest/functions.ts`.  `transactionId` and `userId` are
the event payload (an empty string models a missing/falsy field), `now` is
the value of `new Date()` during the run and `freshId` is the id the database
generates for the inserted row. -/
def processRecurringTransaction (s : DBState) (now : JSDate)
    (transactionId userId freshId : String) : ProcessResult × DBState :=
  if transactionId = "" ∨ userId = "" then
    (.skipped "Missing required event data", s)
  else
    match findTxn s.transactions transactionId userId with
    | none => (.skipped "Transaction not due or not found", s)
    | some t =>
      match t.nextRecurringDate with
      | none => (.skipped "Transaction not due or not found", s)
      | some nextDue =>
        if isTransactionDue t.lastProcessed nextDue now then
          match t.recurringInterval with
          | none => (.errorThrown, s)
          | some ivl =>
            match Inngest.calculateNextRecurringDate now ivl with
            | .error _ => (.errorThrown, s)
            | .ok nextDate =>
              let newTxn : Txn :=
                { id := freshId
                  txnType := t.txnType
                  amount := t.amount
                  description := t.description ++ " (Recurring)"
                  date := now
                  category := t.category
                  isRecurring := false
                  recurringInterval := none
                  nextRecurringDate := none
                  lastProcessed := none
                  status := .COMPLETED
                  userId := t.userId
                  accountId := t.accountId }
              let balanceChange : ℚ :=
                balanceChangeOf t.txnType t.amount
              let updatedTxn :=
                { t with
                    lastProcessed := some now
                    nextRecurringDate := some nextDate }
              (.processed t.id,
               { transactions :=
                   replaceFirstTxnById (s.transactions ++ [newTxn]) t.id
                     updatedTxn
                 accounts := incBalance s.accounts t.accountId balanceChange })
        else (.skipped "Transaction not due or not found", s)

/-! ## `checkBudgetAlert` (`src/my-app/src/lib/inngest/functions.ts`) -/

/-- A `Budget` row (fields used by the verified logic). -/
structure Budget where
  id : String
  userId : String
  amount : ℚ
  lastAlertSent : Option JSDate
deriving DecidableEq, Repr

/-- `isNewMonth` from `src/my-app/src/lib/inngest/functions.ts`: true when no
alert was ever sent, or the last alert's calendar month (year, month) differs
from the current one. -/
def isNewMonth (lastAlertDate : Option JSDate) (currentDate : JSDate) : Bool :=
  match lastAlertDate with
  | none => true
  | some d =>
    decide (d.year ≠ currentDate.year) || decide (d.month ≠ currentDate.month)

/-- Whether a transaction date lies in the current-month window
`[new Date(y, m, 1), new Date(y, m + 1, 0)]` used by the budget check. -/
def inCurrentMonth (d now : JSDate) : Bool :=
  jsleb ⟨now.year, now.month, 1⟩ d &&
    jsleb d ⟨now.year, now.month, daysInMonth now.year now.month⟩

/-- The aggregate
`db.transaction.aggregate({ where: { userId, accountId, type: EXPENSE, date in month }, _sum: { amount } })`
followed by `?.toNumber() || 0`. -/
def monthlyExpenses (s : DBState) (userId accountId : String) (now : JSDate) :
    ℚ :=
  ((s.transactions.filter (fun t =>
      decide (t.userId = userId) && decide (t.accountId = accountId) &&
        decide (t.txnType = .EXPENSE) && inCurrentMonth t.date now)).map
    (fun t => t.amount)).sum

/-- `percentageUsed = (totalExpenses / budgetAmount) * 100`, computed in
JavaScript floating-point arithmetic (so a zero budget yields `Infinity` or
`NaN`). -/
def percentageUsedOf (totalExpenses budgetAmount : ℚ) : JSNum :=
  JSNum.mul (JSNum.div (JSNum.num totalExpenses) (JSNum.num budgetAmount))
    (JSNum.num 100)

/-- The alert condition of `checkBudgetAlert`:
`(percentageUsed >= 80 && !budget.lastAlertSent) || isNewMonth(budget.lastAlertSent, new Date())`. -/
def budgetAlertCondition (percentageUsed : JSNum)
    (lastAlertSent : Option JSDate) (now : JSDate) : Bool :=
  (JSNum.geb percentageUsed (JSNum.num 80) && lastAlertSent.isNone) ||
    isNewMonth lastAlertSent now

/-- Outcome of one `sendEmail` call (`src/actions/send-email.ts` wraps the
external email API): it reports `{ success: true }`, reports
`{ success: false, error }`, or — defensively, the caller catches this — an
exception escapes. -/
inductive EmailOutcome where
  | success
  | failure (err : String)
  | thrown (err : String)
deriving DecidableEq, Repr

/-- The per-budget body of `checkBudgetAlert` from
`src/my-app/src/lib/inngest/functions.ts`: resolve the user's default
account (skip when absent), compute the month's expense percentage, and when
the alert condition holds attempt the email, updating `lastAlertSent` to
`now` only when the send reports success.  Returns the resulting budget row
and whether an email send was attempted. -/
def checkBudgetAlertStep (s : DBState) (b : Budget) (now : JSDate)
    (outcome : EmailOutcome) : Budget × Bool :=
  match s.accounts.find? (fun a => decide (a.userId = b.userId) && a.isDefault) with
  | none => (b, false)
  | some acct =>
    let totalExpenses := monthlyExpenses s b.userId acct.id now
    let percentageUsed := percentageUsedOf totalExpenses b.amount
    if budgetAlertCondition percentageUsed b.lastAlertSent now then
      match outcome with
      | .success => ({ b with lastAlertSent := some now }, true)
      | .failure _ => (b, true)
      | .thrown _ => (b, true)
    else (b, false)

/-! ## `generateMonthlyReports` (`src/my-app/src/lib/inngest/functions.ts`) -/

/-- A `User` row (fields used by the monthly report). -/
structure ReportUser where
  id : String
  email : String
  name : Option String
deriving DecidableEq, Repr

/-- The aggregate built by `getMonthlyStats`. -/
structure MonthlyStats where
  totalExpenses : ℚ
  totalIncome : ℚ
  byCategory : List (String × ℚ)
  transactionCount : Nat
deriving DecidableEq, Repr

/-- `stats.byCategory[c] = (stats.byCategory[c] || 0) + amount` on an
association list. -/
def addCategory : List (String × ℚ) → String → ℚ → List (String × ℚ)
  | [], c, amt => [(c, amt)]
  | (k, v) :: rest, c, amt =>
    if k = c then (k, v + amt) :: rest else (k, v) :: addCategory rest c amt

/-- `getMonthlyStats` from `src/my-app/src/lib/inngest/functions.ts`:
aggregate the user's transactions dated in the month of `month` into income,
expenses and per-category expense totals. -/
def getMonthlyStats (txns : List Txn) (userId : String) (month : JSDate) :
    MonthlyStats :=
  let monthTxns :=
    txns.filter (fun t => decide (t.userId = userId) && inCurrentMonth t.date month)
  monthTxns.foldl
    (fun stats t =>
      match t.txnType with
      | .EXPENSE =>
        { stats with
            totalExpenses := stats.totalExpenses + t.amount
            byCategory := addCategory stats.byCategory t.category t.amount }
      | .INCOME => { stats with totalIncome := stats.totalIncome + t.amount })
    { totalExpenses := 0
      totalIncome := 0
      byCategory := []
      transactionCount := monthTxns.length }

/-- The hardcoded fallback insights used when the AI call fails or returns
unparsable output. -/
def fallbackInsights : List String :=
  ["Your highest expense category this month might need attention.",
   "Consider setting up a budget for better financial management.",
   "Track your recurring expenses to identify potential savings."]

/-- Outcome of the external AI call after JSON parsing: a parsed list of
insights, or any failure (request error or unparsable output). -/
inductive AIOutcome where
  | ok (insights : List String)
  | error (msg : String)
deriving DecidableEq, Repr

/-- `generateFinancialInsights` from
`src/my-app/src/lib/inngest/functions.ts`: the AI request and JSON parse are
wrapped in try/catch, and every failure is replaced by the fallback list. -/
def generateFinancialInsights (outcome : AIOutcome) : List String :=
  match outcome with
  | .ok insights => insights
  | .error _ => fallbackInsights

/-- English month name (`toLocaleString("default", { month: "long" })`,
1-based month). -/
def monthName : Nat → String
  | 1 => "January" | 2 => "February" | 3 => "March" | 4 => "April"
  | 5 => "May" | 6 => "June" | 7 => "July" | 8 => "August"
  | 9 => "September" | 10 => "October" | 11 => "November" | 12 => "December"
  | _ => ""

/-- One report email handed to `sendEmail` (whose result the batch ignores). -/
structure SentEmail where
  recipient : String
  subject : String
  insights : List String
  outcome : EmailOutcome
deriving DecidableEq, Repr

/-- `generateMonthlyReports` from
`src/my-app/src/lib/inngest/functions.ts`: for every user, aggregate the
previous month, obtain insights (AI result or fallback), and send the report
email; the send result is ignored, and the function returns
`{ processed: users.length }`.  `ai` and `emailResult` are the per-user
outcomes of the two external calls. -/
def generateMonthlyReports (s : DBState) (users : List ReportUser)
    (now : JSDate) (ai : ReportUser → AIOutcome)
    (emailResult : ReportUser → EmailOutcome) : Nat × List SentEmail :=
  let lastMonth := setMonthMinus1 now
  let reports := users.map (fun u =>
    let _stats := getMonthlyStats s.transactions u.id lastMonth
    let insights := generateFinancialInsights (ai u)
    { recipient := u.email
      subject := "Your Monthly Financial Report - " ++ monthName lastMonth.month
      insights := insights
      outcome := emailResult u })
  (users.length, reports)

/-! ## Calendar lemmas -/

/-- Day-overflow normalization never moves the (year, month) pair backwards. -/
theorem normDay_year_month_ge (fuel : Nat) (y : Int) (m d : Nat) :
    y < (normDay fuel y m d).year ∨
      (y = (normDay fuel y m d).year ∧ m ≤ (normDay fuel y m d).month) := by
  induction fuel generalizing y m d with
  | zero => exact Or.inr ⟨rfl, le_refl m⟩
  | succ n ih =>
    simp only [normDay]
    split
    · split
      · rcases ih (y + 1) 1 (d - daysInMonth y m) with h | ⟨h1, h2⟩
        · exact Or.inl (by omega)
        · exact Or.inl (by omega)
      · rcases ih y (m + 1) (d - daysInMonth y m) with h | ⟨h1, h2⟩
        · exact Or.inl h
        · exact Or.inr ⟨h1, by omega⟩
    · exact Or.inr ⟨rfl, le_refl m⟩

theorem jsltb_of_year_month_lt {a b : JSDate}
    (h : a.year < b.year ∨ (a.year = b.year ∧ a.month < b.month)) :
    jsltb a b = true := by
  simp only [jsltb, Bool.or_eq_true, Bool.and_eq_true, decide_eq_true_eq]
  rcases h with h | ⟨h1, h2⟩
  · exact Or.inl h
  · exact Or.inr ⟨h1, Or.inl h2⟩

theorem jsltb_mk_of_year_month_lt {y : Int} {m d : Nat} {b : JSDate}
    (h : y < b.year ∨ (y = b.year ∧ m < b.month)) :
    jsltb ⟨y, m, d⟩ b = true :=
  jsltb_of_year_month_lt h

theorem jsltb_same_year_month {y : Int} {m d d' : Nat} (h : d < d') :
    jsltb ⟨y, m, d⟩ ⟨y, m, d'⟩ = true := by
  simp only [jsltb, Bool.or_eq_true, Bool.and_eq_true, decide_eq_true_eq]
  exact Or.inr ⟨trivial, Or.inr ⟨trivial, h⟩⟩

/-- Normalizing a strictly larger day count yields a strictly later date. -/
theorem normDay_gt (fuel : Nat) (y : Int) (m d0 d : Nat) (h : d0 < d) :
    jsltb ⟨y, m, d0⟩ (normDay fuel y m d) = true := by
  cases fuel with
  | zero => exact jsltb_same_year_month h
  | succ n =>
    simp only [normDay]
    split
    · split
      · have hge := normDay_year_month_ge n (y + 1) 1 (d - daysInMonth y m)
        apply jsltb_mk_of_year_month_lt
        rcases hge with h1 | ⟨h1, h2⟩
        · exact Or.inl (by omega)
        · exact Or.inl (by omega)
      · have hge := normDay_year_month_ge n y (m + 1) (d - daysInMonth y m)
        apply jsltb_mk_of_year_month_lt
        rcases hge with h1 | ⟨h1, h2⟩
        · exact Or.inl h1
        · exact Or.inr ⟨h1, by omega⟩
    · exact jsltb_same_year_month h

theorem setDatePlus_lt (dt : JSDate) (n : Nat) (h : 1 ≤ n) :
    jsltb dt (setDatePlus dt n) = true := by
  cases dt with
  | mk y m d => exact normDay_gt (d + n) y m d (d + n) (by omega)

theorem setMonthPlus1_lt (dt : JSDate) : jsltb dt (setMonthPlus1 dt) = true := by
  cases dt with
  | mk y m d =>
    simp only [setMonthPlus1, mkDate]
    split
    · have hge := normDay_year_month_ge d (y + 1) 1 d
      apply jsltb_mk_of_year_month_lt
      rcases hge with h1 | ⟨h1, h2⟩
      · exact Or.inl (by omega)
      · exact Or.inl (by omega)
    · have hge := normDay_year_month_ge d y (m + 1) d
      apply jsltb_mk_of_year_month_lt
      rcases hge with h1 | ⟨h1, h2⟩
      · exact Or.inl h1
      · exact Or.inr ⟨h1, by omega⟩

theorem setFullYearPlus1_lt (dt : JSDate) :
    jsltb dt (setFullYearPlus1 dt) = true := by
  cases dt with
  | mk y m d =>
    simp only [setFullYearPlus1, mkDate]
    have hge := normDay_year_month_ge d (y + 1) m d
    apply jsltb_mk_of_year_month_lt
    rcases hge with h1 | ⟨h1, h2⟩
    · exact Or.inl (by omega)
    · exact Or.inl (by omega)

/-- Every known interval tag advances the date strictly. -/
theorem calculateNextRecurringDate_lt (now : JSDate) (ivl : IntervalTag)
    (next : JSDate)
    (h : Inngest.calculateNextRecurringDate now ivl = .ok next) :
    jsltb now next = true := by
  cases ivl with
  | DAILY =>
    simp only [Inngest.calculateNextRecurringDate, Except.ok.injEq] at h
    exact h ▸ setDatePlus_lt now 1 (by omega)
  | WEEKLY =>
    simp only [Inngest.calculateNextRecurringDate, Except.ok.injEq] at h
    exact h ▸ setDatePlus_lt now 7 (by omega)
  | MONTHLY =>
    simp only [Inngest.calculateNextRecurringDate, Except.ok.injEq] at h
    exact h ▸ setMonthPlus1_lt now
  | YEARLY =>
    simp only [Inngest.calculateNextRecurringDate, Except.ok.injEq] at h
    exact h ▸ setFullYearPlus1_lt now
  | other tag => simp [Inngest.calculateNextRecurringDate] at h

/-! ## List lemmas for the balance bookkeeping -/

theorem accountTxnSum_nil (acc : String) : accountTxnSum [] acc = 0 := rfl

theorem accountTxnSum_cons (t : Txn) (ts : List Txn) (acc : String) :
    accountTxnSum (t :: ts) acc = contribution t acc + accountTxnSum ts acc := by
  simp [accountTxnSum]

theorem accountTxnSum_append (xs ys : List Txn) (acc : String) :
    accountTxnSum (xs ++ ys) acc =
      accountTxnSum xs acc + accountTxnSum ys acc := by
  simp [accountTxnSum]

theorem findTxn_mem {txns : List Txn} {i u : String} {t : Txn}
    (h : findTxn txns i u = some t) : t ∈ txns := by
  induction txns with
  | nil => simp [findTxn] at h
  | cons x rest ih =>
    simp only [findTxn] at h
    split at h
    · cases h; exact List.mem_cons_self _ _
    · exact List.mem_cons_of_mem _ (ih h)

theorem findTxn_keys {txns : List Txn} {i u : String} {t : Txn}
    (h : findTxn txns i u = some t) : t.id = i ∧ t.userId = u := by
  induction txns with
  | nil => simp [findTxn] at h
  | cons x rest ih =>
    simp only [findTxn] at h
    split at h
    · cases h; assumption
    · exact ih h

theorem findAccount_mem {accounts : List Account} {i u : String} {a : Account}
    (h : findAccount accounts i u = some a) : a ∈ accounts := by
  induction accounts with
  | nil => simp [findAccount] at h
  | cons x rest ih =>
    simp only [findAccount] at h
    split at h
    · cases h; exact List.mem_cons_self _ _
    · exact List.mem_cons_of_mem _ (ih h)

theorem findAccount_keys {accounts : List Account} {i u : String}
    {a : Account} (h : findAccount accounts i u = some a) :
    a.id = i ∧ a.userId = u := by
  induction accounts with
  | nil => simp [findAccount] at h
  | cons x rest ih =>
    simp only [findAccount] at h
    split at h
    · cases h; assumption
    · exact ih h

theorem findAccountById_mem {accounts : List Account} {i : String}
    {a : Account} (h : findAccountById accounts i = some a) : a ∈ accounts := by
  induction accounts with
  | nil => simp [findAccountById] at h
  | cons x rest ih =>
    simp only [findAccountById] at h
    split at h
    · cases h; exact List.mem_cons_self _ _
    · exact List.mem_cons_of_mem _ (ih h)

theorem findAccountById_key {accounts : List Account} {i : String}
    {a : Account} (h : findAccountById accounts i = some a) : a.id = i := by
  induction accounts with
  | nil => simp [findAccountById] at h
  | cons x rest ih =>
    simp only [findAccountById] at h
    split at h
    · cases h; assumption
    · exact ih h

theorem accountTxnSum_replaceFirstTxn {txns : List Txn} {i u : String}
    {f : Txn} (h : findTxn txns i u = some f) (v : Txn) (acc : String) :
    accountTxnSum (replaceFirstTxn txns i u v) acc =
      accountTxnSum txns acc - contribution f acc + contribution v acc := by
  induction txns with
  | nil => simp [findTxn] at h
  | cons x rest ih =>
    simp only [findTxn] at h
    simp only [replaceFirstTxn]
    by_cases hc : x.id = i ∧ x.userId = u
    · rw [if_pos hc] at h ⊢
      cases h
      simp only [accountTxnSum_cons]
      ring
    · rw [if_neg hc] at h ⊢
      simp only [accountTxnSum_cons, ih h]
      ring

theorem accountTxnSum_removeFirstTxn {txns : List Txn} {i u : String}
    {f : Txn} (h : findTxn txns i u = some f) (acc : String) :
    accountTxnSum (removeFirstTxn txns i u) acc =
      accountTxnSum txns acc - contribution f acc := by
  induction txns with
  | nil => simp [findTxn] at h
  | cons x rest ih =>
    simp only [findTxn] at h
    simp only [removeFirstTxn]
    by_cases hc : x.id = i ∧ x.userId = u
    · rw [if_pos hc] at h ⊢
      cases h
      simp only [accountTxnSum_cons]
      ring
    · rw [if_neg hc] at h ⊢
      simp only [accountTxnSum_cons, ih h]
      ring

theorem findTxnById_isSome_of_mem {txns : List Txn} {x : Txn}
    (hmem : x ∈ txns) {i : String} (hx : x.id = i) :
    (findTxnById txns i).isSome = true := by
  induction txns with
  | nil => cases hmem
  | cons y rest ih =>
    simp only [findTxnById]
    by_cases hc : y.id = i
    · rw [if_pos hc]; rfl
    · rw [if_neg hc]
      rcases List.mem_cons.mp hmem with rfl | hmem'
      · exact absurd hx hc
      · exact ih hmem'

theorem replaceFirstTxnById_append_left {xs : List Txn} {i : String}
    (h : (findTxnById xs i).isSome = true) (ys : List Txn) (v : Txn) :
    replaceFirstTxnById (xs ++ ys) i v = replaceFirstTxnById xs i v ++ ys := by
  induction xs with
  | nil => simp [findTxnById] at h
  | cons x rest ih =>
    simp only [findTxnById] at h
    simp only [List.cons_append, replaceFirstTxnById]
    by_cases hc : x.id = i
    · simp only [if_pos hc]
      rfl
    · rw [if_neg hc] at h
      simp only [if_neg hc, List.append_eq, ih h, List.cons_append]

theorem findTxnById_replaceFirstTxnById {xs : List Txn} {i : String}
    (h : (findTxnById xs i).isSome = true) {v : Txn} (hv : v.id = i) :
    findTxnById (replaceFirstTxnById xs i v) i = some v := by
  induction xs with
  | nil => simp [findTxnById] at h
  | cons x rest ih =>
    simp only [findTxnById] at h
    simp only [replaceFirstTxnById]
    by_cases hc : x.id = i
    · rw [if_pos hc]
      simp [findTxnById, hv]
    · rw [if_neg hc] at h
      rw [if_neg hc]
      simp only [findTxnById, if_neg hc]
      exact ih h

theorem findTxnById_append_left {xs : List Txn} {i : String} {x : Txn}
    (h : findTxnById xs i = some x) (ys : List Txn) :
    findTxnById (xs ++ ys) i = some x := by
  induction xs with
  | nil => simp [findTxnById] at h
  | cons y rest ih =>
    simp only [findTxnById] at h
    simp only [List.cons_append, findTxnById]
    split at h
    · rw [if_pos (by assumption)]; exact h
    · rw [if_neg (by assumption)]; exact ih h

theorem balanceChangeOf_eq_signed (t : Txn) :
    balanceChangeOf t.txnType t.amount = signedAmount t := rfl

theorem reverseBalanceChangeOf_eq_neg_signed (t : Txn) :
    reverseBalanceChangeOf t.txnType t.amount = -signedAmount t := by
  cases ht : t.txnType <;> simp [reverseBalanceChangeOf, signedAmount, ht]

theorem contribution_of_eq {t : Txn} {acc : String} (h : t.accountId = acc) :
    contribution t acc = signedAmount t := by
  simp [contribution, h]

theorem contribution_of_ne {t : Txn} {acc : String} (h : t.accountId ≠ acc) :
    contribution t acc = 0 := by
  simp [contribution, h]

/-! ## Invariant preservation of the three single-transaction operations -/

theorem createTransaction_preserves_invariant {s : DBState}
    {u freshId : String} {data : TransactionData} {p : DBState × Txn}
    (hinv : BalanceInvariant s)
    (h : createTransaction s u freshId data = some p) :
    BalanceInvariant p.1 := by
  unfold createTransaction at h
  split at h
  · exact absurd h (by simp)
  · rename_i account hfa
    cases h
    intro a' ha'
    simp only [setBalance] at ha'
    obtain ⟨a, ha, rfl⟩ := List.mem_map.mp ha'
    have hmem := findAccount_mem hfa
    have hkeys := findAccount_keys hfa
    have hbal := hinv account hmem
    by_cases hid : a.id = data.accountId
    · rw [if_pos hid]
      show account.balance + balanceChangeOf data.txnType data.amount =
        accountTxnSum (s.transactions ++ [_]) a.id
      rw [accountTxnSum_append, accountTxnSum_cons, accountTxnSum_nil,
        contribution_of_eq hid.symm]
      have : account.id = a.id := by rw [hkeys.1, hid]
      rw [hbal, this]
      cases data.txnType <;> simp [signedAmount, balanceChangeOf]
    · rw [if_neg hid]
      show a.balance = accountTxnSum (s.transactions ++ [_]) a.id
      rw [accountTxnSum_append, accountTxnSum_cons, accountTxnSum_nil,
        contribution_of_ne (fun hcon => hid hcon.symm)]
      rw [hinv a ha]
      ring

theorem deleteTransaction_preserves_invariant {s : DBState} {u i : String}
    {s' : DBState} (hinv : BalanceInvariant s)
    (h : deleteTransaction s u i = some s') :
    BalanceInvariant s' := by
  unfold deleteTransaction at h
  split at h
  · exact absurd h (by simp)
  · rename_i transaction hft
    split at h
    · exact absurd h (by simp)
    · rename_i account hfa
      cases h
      intro a' ha'
      simp only [setBalance] at ha'
      obtain ⟨a, ha, rfl⟩ := List.mem_map.mp ha'
      have hkey := findAccountById_key hfa
      have hbal := hinv account (findAccountById_mem hfa)
      by_cases hid : a.id = transaction.accountId
      · rw [if_pos hid]
        show account.balance +
            reverseBalanceChangeOf transaction.txnType transaction.amount =
          accountTxnSum (removeFirstTxn s.transactions i u) a.id
        rw [accountTxnSum_removeFirstTxn hft,
          contribution_of_eq hid.symm, reverseBalanceChangeOf_eq_neg_signed]
        have : account.id = a.id := by rw [hkey, hid]
        rw [hbal, this]
        ring
      · rw [if_neg hid]
        show a.balance = accountTxnSum (removeFirstTxn s.transactions i u) a.id
        rw [accountTxnSum_removeFirstTxn hft,
          contribution_of_ne (fun hcon => hid hcon.symm)]
        rw [hinv a ha]
        ring

theorem updateTransaction_preserves_invariant {s : DBState} {u i : String}
    {data : TransactionData} {s' : DBState}
    (hinv : BalanceInvariant s) (h : updateTransaction s u i data = some s') :
    BalanceInvariant s' := by
  simp only [updateTransaction] at h
  split at h
  · exact absurd h (by simp)
  · rename_i originalTransaction hft
    split at h
    · exact absurd h (by simp)
    · rename_i originalAccount hfa
      have hOA := findAccountById_key hfa
      have hbalOA := hinv originalAccount (findAccountById_mem hfa)
      split at h
      · -- account switching branch
        rename_i hne
        split at h
        · exact absurd h (by simp)
        · rename_i newAccount hfnew
          have hNA := findAccount_keys hfnew
          have hbalNA := hinv newAccount (findAccount_mem hfnew)
          cases h
          intro a' ha'
          simp only [setBalance] at ha'
          obtain ⟨a1, ha1, rfl⟩ := List.mem_map.mp ha'
          obtain ⟨a, ha, rfl⟩ := List.mem_map.mp ha1
          by_cases h1 : a.id = originalTransaction.accountId
          · rw [if_pos h1]
            dsimp only
            rw [if_neg (fun hcon => hne (hcon.symm.trans h1))]
            dsimp only
            rw [accountTxnSum_replaceFirstTxn hft,
              contribution_of_eq h1.symm,
              contribution_of_ne (fun hcon => hne (hcon.trans h1)),
              reverseBalanceChangeOf_eq_neg_signed]
            have hOAid : originalAccount.id = a.id := by rw [hOA, h1]
            rw [hbalOA, hOAid]
            ring
          · rw [if_neg h1]
            by_cases h2 : a.id = data.accountId
            · rw [if_pos h2]
              dsimp only
              rw [accountTxnSum_replaceFirstTxn hft,
                contribution_of_ne (fun hcon => h1 hcon.symm),
                contribution_of_eq h2.symm]
              have hNAid : newAccount.id = a.id := by rw [hNA.1, h2]
              rw [hbalNA, hNAid]
              cases data.txnType <;>
                simp [signedAmount, balanceChangeOf]
            · rw [if_neg h2]
              rw [accountTxnSum_replaceFirstTxn hft,
                contribution_of_ne (fun hcon => h1 hcon.symm),
                contribution_of_ne (fun hcon => h2 hcon.symm)]
              rw [hinv a ha]
              ring
      · -- same-account branch
        rename_i hsame
        have heq : data.accountId = originalTransaction.accountId :=
          not_ne_iff.mp hsame
        cases h
        intro a' ha'
        simp only [setBalance] at ha'
        obtain ⟨a, ha, rfl⟩ := List.mem_map.mp ha'
        by_cases hid : a.id = data.accountId
        · rw [if_pos hid]
          dsimp only
          rw [accountTxnSum_replaceFirstTxn hft,
            contribution_of_eq
              ((heq.symm.trans hid.symm :
                originalTransaction.accountId = a.id)),
            contribution_of_eq hid.symm,
            reverseBalanceChangeOf_eq_neg_signed]
          have hOAid : originalAccount.id = a.id := by rw [hOA, ← heq, hid]
          rw [hbalOA, hOAid]
          cases data.txnType <;>
            simp [signedAmount, balanceChangeOf] <;> ring
        · rw [if_neg hid]
          rw [accountTxnSum_replaceFirstTxn hft,
            contribution_of_ne
              (fun hcon => hid ((hcon.symm.trans heq.symm).symm ▸ rfl)),
            contribution_of_ne (fun hcon => hid hcon.symm)]
          rw [hinv a ha]
          ring

theorem applyOp_preserves_invariant (s : DBState) (op : Op)
    (hinv : BalanceInvariant s) : BalanceInvariant (applyOp s op) := by
  cases op with
  | create u freshId data =>
    simp only [applyOp]
    cases h : createTransaction s u freshId data with
    | none => exact hinv
    | some p => exact createTransaction_preserves_invariant hinv h
  | update u i data =>
    simp only [applyOp]
    cases h : updateTransaction s u i data with
    | none => exact hinv
    | some s2 => exact updateTransaction_preserves_invariant hinv h
  | delete u i =>
    simp only [applyOp]
    cases h : deleteTransaction s u i with
    | none => exact hinv
    | some s2 => exact deleteTransaction_preserves_invariant hinv h

/-! ## C1: the balance invariant -/

/-- C1: starting from a state satisfying the balance invariant, any sequence
of `createTransaction`, `updateTransaction` and `deleteTransaction`
operations preserves it: every account's balance remains the signed sum of
that account's transactions (income positive, expense negative); each
operation adjusts the balance so as to restore the equality (a failed
operation throws before committing and leaves the state unchanged). -/
theorem transaction_ops_preserve_balance_invariant (ops : List Op)
    (s : DBState) (hinv : BalanceInvariant s) :
    BalanceInvariant (applyOps s ops) := by
  induction ops generalizing s with
  | nil => exact hinv
  | cons op rest ih => exact ih _ (applyOp_preserves_invariant s op hinv)

/-- C1 (witness): an account starting at balance 0 with no transactions
satisfies the invariant, and still satisfies it after creating an income
transaction of 100 and then deleting it (the spec's end-to-end example). -/
theorem transaction_ops_preserve_balance_invariant_witness :
    BalanceInvariant ⟨[⟨"a1", "Main", .CURRENT, 0, true, "u1"⟩], []⟩ ∧
    BalanceInvariant (applyOps ⟨[⟨"a1", "Main", .CURRENT, 0, true, "u1"⟩], []⟩
      [.create "u1" "t1"
        ⟨"a1", 100, .INCOME, "salary", "Pay", ⟨2024, 5, 1⟩, none, none, none⟩,
       .delete "u1" "t1"]) := by
  have hinv0 : BalanceInvariant
      ⟨[⟨"a1", "Main", .CURRENT, 0, true, "u1"⟩], []⟩ := by
    intro a ha
    simp only [List.mem_singleton] at ha
    subst ha
    rfl
  exact ⟨hinv0, transaction_ops_preserve_balance_invariant _ _ hinv0⟩

theorem accountTxnSum_filter_split (p : Txn → Bool) (txns : List Txn)
    (acc : String) :
    accountTxnSum txns acc =
      accountTxnSum (txns.filter p) acc +
        accountTxnSum (txns.filter (fun t => !(p t))) acc := by
  induction txns with
  | nil => simp [accountTxnSum]
  | cons x rest ih =>
    by_cases hp : p x = true
    · rw [List.filter_cons_of_pos hp,
        List.filter_cons_of_neg (by simp [hp]),
        accountTxnSum_cons, accountTxnSum_cons, ih]
      ring
    · rw [List.filter_cons_of_neg (by simpa using hp),
        List.filter_cons_of_pos (by simpa using hp),
        accountTxnSum_cons, accountTxnSum_cons, ih]
      ring

theorem bulkReversalDelta_eq_neg_sum (txns : List Txn) (acc : String) :
    bulkReversalDelta txns acc = -accountTxnSum txns acc := by
  induction txns with
  | nil => simp [bulkReversalDelta, accountTxnSum]
  | cons x rest ih =>
    simp only [bulkReversalDelta, List.map_cons, List.sum_cons]
    simp only [bulkReversalDelta] at ih
    rw [accountTxnSum_cons, ih]
    by_cases hx : x.accountId = acc
    · rw [if_pos hx, contribution_of_eq hx,
        reverseBalanceChangeOf_eq_neg_signed]
      ring
    · rw [if_neg hx, contribution_of_ne hx]
      ring

/-! ## C7: bulk delete restores balances -/

/-- C7: for every list of transaction ids, `bulkDeleteTransaction` deletes
the user's matching transactions and increments each affected account's
balance by the sum over that account's deleted transactions of `+amount` for
an expense and `-amount` for an income; consequently, starting from a state
satisfying the balance invariant, every account's balance afterwards equals
the signed sum of the transactions that remain — the value it would have had
absent the deleted transactions. -/
theorem bulkDeleteTransaction_restores_balances (s : DBState) (u : String)
    (ids : List String) (s' : DBState) (hinv : BalanceInvariant s)
    (h : bulkDeleteTransaction s u ids = some s') :
    s'.transactions =
      s.transactions.filter
        (fun t => decide (¬ (t.id ∈ ids ∧ t.userId = u))) ∧
    s'.accounts = s.accounts.map (fun a =>
      { a with
          balance := a.balance + bulkReversalDelta (deletedTxns s u ids) a.id }) ∧
    BalanceInvariant s' := by
  unfold bulkDeleteTransaction at h
  split at h
  · exact absurd h (by simp)
  · dsimp only at h
    split at h
    · exact absurd h (by simp)
    · cases h
      refine ⟨rfl, rfl, ?_⟩
      intro a' ha'
      obtain ⟨a, ha, rfl⟩ := List.mem_map.mp ha'
      dsimp only
      rw [bulkReversalDelta_eq_neg_sum, hinv a ha]
      have hkeep : (fun t => decide (¬ (t.id ∈ ids ∧ t.userId = u)))
          = fun t : Txn => !(decide (t.id ∈ ids ∧ t.userId = u)) := by
        funext t
        simp [decide_not]
      have hsplit := accountTxnSum_filter_split
        (fun t => decide (t.id ∈ ids ∧ t.userId = u)) s.transactions a.id
      simp only [deletedTxns, hkeep]
      linarith [hsplit]

/-- C7 (witness): deleting one expense of 30 from an account whose balance 70
is the signed sum of an income of 100 and that expense restores the balance
to 100 (the signed sum of the remaining transaction). -/
theorem bulkDeleteTransaction_restores_balances_witness :
    BalanceInvariant
      ⟨[⟨"a1", "Main", .CURRENT, 70, true, "u1"⟩],
       [⟨"t1", .EXPENSE, 30, "Dinner", ⟨2024, 5, 2⟩, "food", false, none,
         none, none, .COMPLETED, "u1", "a1"⟩,
        ⟨"t2", .INCOME, 100, "Pay", ⟨2024, 5, 1⟩, "salary", false, none,
         none, none, .COMPLETED, "u1", "a1"⟩]⟩ ∧
    ∃ s', bulkDeleteTransaction
        ⟨[⟨"a1", "Main", .CURRENT, 70, true, "u1"⟩],
         [⟨"t1", .EXPENSE, 30, "Dinner", ⟨2024, 5, 2⟩, "food", false, none,
           none, none, .COMPLETED, "u1", "a1"⟩,
          ⟨"t2", .INCOME, 100, "Pay", ⟨2024, 5, 1⟩, "salary", false, none,
           none, none, .COMPLETED, "u1", "a1"⟩]⟩ "u1" ["t1"] = some s' ∧
      BalanceInvariant s' := by
  have hinvS : BalanceInvariant
      ⟨[⟨"a1", "Main", .CURRENT, 70, true, "u1"⟩],
       [⟨"t1", .EXPENSE, 30, "Dinner", ⟨2024, 5, 2⟩, "food", false, none,
         none, none, .COMPLETED, "u1", "a1"⟩,
        ⟨"t2", .INCOME, 100, "Pay", ⟨2024, 5, 1⟩, "salary", false, none,
         none, none, .COMPLETED, "u1", "a1"⟩]⟩ := by
    intro a ha
    simp only [List.mem_singleton] at ha
    subst ha
    norm_num [accountTxnSum, contribution, signedAmount]
  refine ⟨hinvS, ?_⟩
  obtain ⟨s', heq⟩ := Option.isSome_iff_exists.mp
    (rfl :
      (bulkDeleteTransaction
        ⟨[⟨"a1", "Main", .CURRENT, 70, true, "u1"⟩],
         [⟨"t1", .EXPENSE, 30, "Dinner", ⟨2024, 5, 2⟩, "food", false, none,
           none, none, .COMPLETED, "u1", "a1"⟩,
          ⟨"t2", .INCOME, 100, "Pay", ⟨2024, 5, 1⟩, "salary", false, none,
           none, none, .COMPLETED, "u1", "a1"⟩]⟩ "u1" ["t1"]).isSome = true)
  exact ⟨s', heq,
    (bulkDeleteTransaction_restores_balances _ _ _ _ hinvS heq).2.2⟩

/-! ## C5: next-occurrence computation -/

/-- C5 (counterexample): the `transaction.ts` copy of
`calculateNextRecurringDate` does not raise a fatal error on an interval tag
outside the four known ones — its switch has no default case, so the date is
returned unchanged. -/
theorem actions_calculateNextRecurringDate_unknown_tag_no_error :
    Actions.calculateNextRecurringDate ⟨2024, 1, 15⟩
      (IntervalTag.other "BIWEEKLY") = ⟨2024, 1, 15⟩ := rfl

/-- C5 (amended): `calculateNextRecurringDate` returns d + 1 day for DAILY,
d + 7 days for WEEKLY, d + 1 calendar month with rollover semantics for
MONTHLY (Jan 31 2023 rolls over to Mar 3 2023, not naive +30 days, which
would give Mar 2 2023), and d + 1 calendar year for YEARLY, identically in
both copies; for a tag outside these four the `functions.ts` copy raises a
fatal error while the `transaction.ts` copy returns the date unchanged. -/
theorem calculateNextRecurringDate_interval_arithmetic :
    (∀ d : JSDate,
      Inngest.calculateNextRecurringDate d .DAILY = .ok (setDatePlus d 1) ∧
      Inngest.calculateNextRecurringDate d .WEEKLY = .ok (setDatePlus d 7) ∧
      Inngest.calculateNextRecurringDate d .MONTHLY = .ok (setMonthPlus1 d) ∧
      Inngest.calculateNextRecurringDate d .YEARLY =
        .ok (setFullYearPlus1 d) ∧
      Actions.calculateNextRecurringDate d .DAILY = setDatePlus d 1 ∧
      Actions.calculateNextRecurringDate d .WEEKLY = setDatePlus d 7 ∧
      Actions.calculateNextRecurringDate d .MONTHLY = setMonthPlus1 d ∧
      Actions.calculateNextRecurringDate d .YEARLY = setFullYearPlus1 d ∧
      (∀ tag, Inngest.calculateNextRecurringDate d (.other tag) =
        .error ("Unsupported interval: " ++ tag)) ∧
      (∀ tag, Actions.calculateNextRecurringDate d (.other tag) = d)) ∧
    setMonthPlus1 ⟨2023, 1, 31⟩ = ⟨2023, 3, 3⟩ ∧
    setDatePlus ⟨2023, 1, 31⟩ 30 = ⟨2023, 3, 2⟩ :=
  ⟨fun _ => ⟨rfl, rfl, rfl, rfl, rfl, rfl, rfl, rfl, fun _ => rfl,
    fun _ => rfl⟩, by decide, by decide⟩

/-! ## C3, C4, C6: the recurring-transaction processor -/

/-- C3: for a found, dated and due recurring transaction with a known
interval, `processRecurringTransaction` reports `processed` and performs the
three effects together: it inserts a new non-recurring COMPLETED transaction
copying type, amount, category and account, with the description annotated
`(Recurring)` and dated now; it changes the source account's balance by the
signed amount (+amount for income, -amount for expense); and it sets the
original's `lastProcessed` to now and `nextRecurringDate` to the next
occurrence computed from now and the interval. -/
theorem processRecurringTransaction_effects (s : DBState) (now : JSDate)
    (transactionId userId freshId : String) (t : Txn) (nextDue : JSDate)
    (ivl : IntervalTag)
    (hid : transactionId ≠ "") (huid : userId ≠ "")
    (hfind : findTxn s.transactions transactionId userId = some t)
    (hnext : t.nextRecurringDate = some nextDue)
    (hdue : isTransactionDue t.lastProcessed nextDue now = true)
    (hivl : t.recurringInterval = some ivl)
    (hknown : ivl.isKnown = true) :
    ∃ nextDate s',
      Inngest.calculateNextRecurringDate now ivl = Except.ok nextDate ∧
      processRecurringTransaction s now transactionId userId freshId =
        (.processed t.id, s') ∧
      ({ id := freshId, txnType := t.txnType, amount := t.amount,
         description := t.description ++ " (Recurring)", date := now,
         category := t.category, isRecurring := false,
         recurringInterval := none, nextRecurringDate := none,
         lastProcessed := none, status := .COMPLETED, userId := t.userId,
         accountId := t.accountId } : Txn) ∈ s'.transactions ∧
      s'.accounts = incBalance s.accounts t.accountId (signedAmount t) ∧
      findTxnById s'.transactions t.id =
        some { t with lastProcessed := some now,
                      nextRecurringDate := some nextDate } := by
  have hcond : ¬(transactionId = "" ∨ userId = "") := by simp [hid, huid]
  obtain ⟨nextDate, hnd⟩ : ∃ nd,
      Inngest.calculateNextRecurringDate now ivl = Except.ok nd := by
    cases ivl with
    | DAILY => exact ⟨_, rfl⟩
    | WEEKLY => exact ⟨_, rfl⟩
    | MONTHLY => exact ⟨_, rfl⟩
    | YEARLY => exact ⟨_, rfl⟩
    | other tag => simp [IntervalTag.isKnown] at hknown
  have hfid : (findTxnById s.transactions t.id).isSome = true :=
    findTxnById_isSome_of_mem (findTxn_mem hfind) rfl
  have hrun : processRecurringTransaction s now transactionId userId freshId =
      (.processed t.id,
       { transactions :=
           replaceFirstTxnById
             (s.transactions ++
               [{ id := freshId, txnType := t.txnType, amount := t.amount,
                  description := t.description ++ " (Recurring)", date := now,
                  category := t.category, isRecurring := false,
                  recurringInterval := none, nextRecurringDate := none,
                  lastProcessed := none, status := .COMPLETED,
                  userId := t.userId, accountId := t.accountId }]) t.id
             { t with lastProcessed := some now,
                      nextRecurringDate := some nextDate }
         accounts := incBalance s.accounts t.accountId
           (balanceChangeOf t.txnType t.amount) }) := by
    unfold processRecurringTransaction
    rw [if_neg hcond]
    simp only [hfind, hnext, hivl, hnd, hdue, if_true]
  refine ⟨nextDate, _, hnd, hrun, ?_, ?_, ?_⟩
  · dsimp only
    rw [replaceFirstTxnById_append_left hfid]
    exact List.mem_append_right _ (by simp)
  · rfl
  · dsimp only
    rw [replaceFirstTxnById_append_left hfid]
    exact findTxnById_append_left
      (findTxnById_replaceFirstTxnById hfid
        (rfl :
          ({ t with
              lastProcessed := some now,
              nextRecurringDate := some nextDate } : Txn).id = t.id)) _

/-- C3 (witness): a due weekly recurring expense of 50 with
`lastProcessed = null` is processed on 2024-05-20: a completed copy dated
now is inserted, the balance changes by -50, and the original's
`lastProcessed`/`nextRecurringDate` become now and now + 7 days. -/
theorem processRecurringTransaction_effects_witness :
    ∃ nextDate s',
      Inngest.calculateNextRecurringDate ⟨2024, 5, 20⟩ .WEEKLY =
        Except.ok nextDate ∧
      processRecurringTransaction
        ⟨[⟨"a1", "Main", .CURRENT, 100, true, "u1"⟩],
         [⟨"r1", .EXPENSE, 50, "Gym", ⟨2024, 5, 13⟩, "health", true,
           some .WEEKLY, some ⟨2024, 5, 20⟩, none, .COMPLETED, "u1", "a1"⟩]⟩
        ⟨2024, 5, 20⟩ "r1" "u1" "n1" = (.processed "r1", s') ∧
      ({ id := "n1", txnType := .EXPENSE, amount := 50,
         description := "Gym (Recurring)", date := ⟨2024, 5, 20⟩,
         category := "health", isRecurring := false,
         recurringInterval := none, nextRecurringDate := none,
         lastProcessed := none, status := .COMPLETED, userId := "u1",
         accountId := "a1" } : Txn) ∈ s'.transactions ∧
      s'.accounts = incBalance
        [⟨"a1", "Main", .CURRENT, 100, true, "u1"⟩] "a1"
        (signedAmount ⟨"r1", .EXPENSE, 50, "Gym", ⟨2024, 5, 13⟩, "health",
          true, some .WEEKLY, some ⟨2024, 5, 20⟩, none, .COMPLETED, "u1",
          "a1"⟩) ∧
      findTxnById s'.transactions "r1" =
        some { (⟨"r1", .EXPENSE, 50, "Gym", ⟨2024, 5, 13⟩, "health", true,
           some .WEEKLY, some ⟨2024, 5, 20⟩, none, .COMPLETED, "u1",
           "a1"⟩ : Txn) with
          lastProcessed := some ⟨2024, 5, 20⟩,
          nextRecurringDate := some nextDate } :=
  processRecurringTransaction_effects
    ⟨[⟨"a1", "Main", .CURRENT, 100, true, "u1"⟩],
     [⟨"r1", .EXPENSE, 50, "Gym", ⟨2024, 5, 13⟩, "health", true,
       some .WEEKLY, some ⟨2024, 5, 20⟩, none, .COMPLETED, "u1", "a1"⟩]⟩
    ⟨2024, 5, 20⟩ "r1" "u1" "n1"
    ⟨"r1", .EXPENSE, 50, "Gym", ⟨2024, 5, 13⟩, "health", true, some .WEEKLY,
      some ⟨2024, 5, 20⟩, none, .COMPLETED, "u1", "a1"⟩
    ⟨2024, 5, 20⟩ .WEEKLY (by decide) (by decide) rfl rfl rfl rfl rfl

/-- C4: with a well-formed event payload, `processRecurringTransaction`
reports `skipped` exactly when the transaction cannot be found, has no
next-due-date, or is not due; a skipped run leaves the database unchanged;
and a transaction with `lastProcessed` unset is always due. -/
theorem processRecurringTransaction_skipped_iff (s : DBState) (now : JSDate)
    (transactionId userId freshId : String)
    (hid : transactionId ≠ "") (huid : userId ≠ "") :
    ((∃ reason, (processRecurringTransaction s now transactionId userId
        freshId).1 = .skipped reason) ↔
      findTxn s.transactions transactionId userId = none ∨
        ∃ t, findTxn s.transactions transactionId userId = some t ∧
          (t.nextRecurringDate = none ∨
            ∃ nd, t.nextRecurringDate = some nd ∧
              isTransactionDue t.lastProcessed nd now = false)) ∧
    ((∃ reason, (processRecurringTransaction s now transactionId userId
        freshId).1 = .skipped reason) →
      (processRecurringTransaction s now transactionId userId freshId).2 =
        s) ∧
    (∀ nd now2, isTransactionDue none nd now2 = true) := by
  have hcond : ¬(transactionId = "" ∨ userId = "") := by simp [hid, huid]
  unfold processRecurringTransaction
  rw [if_neg hcond]
  refine ⟨?_, ?_, fun nd now2 => rfl⟩
  · cases hf : findTxn s.transactions transactionId userId with
    | none => simp [hf]
    | some t =>
      cases hn : t.nextRecurringDate with
      | none => simp [hf, hn]
      | some nd =>
        cases hd : isTransactionDue t.lastProcessed nd now with
        | false => simp [hf, hn, hd]
        | true =>
          cases hi : t.recurringInterval with
          | none => simp [hf, hn, hd, hi]
          | some ivl =>
            cases hc : Inngest.calculateNextRecurringDate now ivl with
            | error e => simp [hf, hn, hd, hi, hc]
            | ok nd2 => simp [hf, hn, hd, hi, hc]
  · cases hf : findTxn s.transactions transactionId userId with
    | none => intro _; simp [hf]
    | some t =>
      cases hn : t.nextRecurringDate with
      | none => intro _; simp [hf, hn]
      | some nd =>
        cases hd : isTransactionDue t.lastProcessed nd now with
        | false => intro _; simp [hf, hn, hd]
        | true =>
          cases hi : t.recurringInterval with
          | none => rintro ⟨reason, hr⟩; simp [hf, hn, hd, hi] at hr
          | some ivl =>
            cases hc : Inngest.calculateNextRecurringDate now ivl with
            | error e => rintro ⟨reason, hr⟩; simp [hf, hn, hd, hi, hc] at hr
            | ok nd2 => rintro ⟨reason, hr⟩; simp [hf, hn, hd, hi, hc] at hr

/-- C4 (witness): on a state with no transactions the run is skipped with no
effect, and a null `lastProcessed` is always due. -/
theorem processRecurringTransaction_skipped_iff_witness :
    ((∃ reason, (processRecurringTransaction ⟨[], []⟩ ⟨2024, 5, 20⟩ "r1" "u1"
        "n1").1 = .skipped reason) ↔
      findTxn ([] : List Txn) "r1" "u1" = none ∨
        ∃ t, findTxn ([] : List Txn) "r1" "u1" = some t ∧
          (t.nextRecurringDate = none ∨
            ∃ nd, t.nextRecurringDate = some nd ∧
              isTransactionDue t.lastProcessed nd ⟨2024, 5, 20⟩ = false)) ∧
    ((∃ reason, (processRecurringTransaction ⟨[], []⟩ ⟨2024, 5, 20⟩ "r1" "u1"
        "n1").1 = .skipped reason) →
      (processRecurringTransaction ⟨[], []⟩ ⟨2024, 5, 20⟩ "r1" "u1" "n1").2 =
        ⟨[], []⟩) ∧
    (∀ nd now2, isTransactionDue none nd now2 = true) :=
  processRecurringTransaction_skipped_iff ⟨[], []⟩ ⟨2024, 5, 20⟩ "r1" "u1"
    "n1" (by decide) (by decide)

/-- C6: after any successful (`processed`) run of
`processRecurringTransaction`, the processed transaction's
`nextRecurringDate` is strictly after its `lastProcessed` date: both are set
during the run, to the next occurrence computed from now and to now
respectively, and every interval advances the date by at least one day. -/
theorem processed_nextRecurringDate_after_lastProcessed (s : DBState)
    (now : JSDate) (transactionId userId freshId ptid : String)
    (s' : DBState)
    (hrun : processRecurringTransaction s now transactionId userId freshId =
      (.processed ptid, s')) :
    ∃ t', findTxnById s'.transactions ptid = some t' ∧
      ∃ lp nd, t'.lastProcessed = some lp ∧ t'.nextRecurringDate = some nd ∧
        jsltb lp nd = true := by
  unfold processRecurringTransaction at hrun
  split at hrun
  · exact absurd hrun (by simp)
  · split at hrun
    · exact absurd hrun (by simp)
    · rename_i t hfind
      split at hrun
      · exact absurd hrun (by simp)
      · rename_i nextDue hnext
        split at hrun
        · split at hrun
          · exact absurd hrun (by simp)
          · rename_i ivl hivl
            split at hrun
            · exact absurd hrun (by simp)
            · rename_i nextDate hnd
              dsimp only at hrun
              rw [Prod.mk.injEq] at hrun
              obtain ⟨hpt, hs⟩ := hrun
              simp only [ProcessResult.processed.injEq] at hpt
              subst hpt
              subst hs
              have hfid : (findTxnById s.transactions t.id).isSome = true :=
                findTxnById_isSome_of_mem (findTxn_mem hfind) rfl
              refine ⟨{ t with
                  lastProcessed := some now,
                  nextRecurringDate := some nextDate }, ?_,
                now, nextDate, rfl, rfl,
                calculateNextRecurringDate_lt now ivl nextDate hnd⟩
              dsimp only
              rw [replaceFirstTxnById_append_left hfid]
              exact findTxnById_append_left
                (findTxnById_replaceFirstTxnById hfid
                  (rfl :
                    ({ t with
                        lastProcessed := some now,
                        nextRecurringDate := some nextDate } : Txn).id =
                      t.id)) _
        · exact absurd hrun (by simp)

/-- C6 (witness): processing the due weekly recurring transaction of the C3
scenario yields an updated row whose `lastProcessed` (2024-05-20) is strictly
before its `nextRecurringDate` (2024-05-27). -/
theorem processed_nextRecurringDate_after_lastProcessed_witness :
    ∃ t', findTxnById
        ((processRecurringTransaction
          ⟨[⟨"a1", "Main", .CURRENT, 100, true, "u1"⟩],
           [⟨"r1", .EXPENSE, 50, "Gym", ⟨2024, 5, 13⟩, "health", true,
             some .WEEKLY, some ⟨2024, 5, 20⟩, none, .COMPLETED, "u1",
             "a1"⟩]⟩
          ⟨2024, 5, 20⟩ "r1" "u1" "n1").2).transactions "r1" = some t' ∧
      ∃ lp nd, t'.lastProcessed = some lp ∧ t'.nextRecurringDate = some nd ∧
        jsltb lp nd = true := by
  have h1 : (processRecurringTransaction
      ⟨[⟨"a1", "Main", .CURRENT, 100, true, "u1"⟩],
       [⟨"r1", .EXPENSE, 50, "Gym", ⟨2024, 5, 13⟩, "health", true,
         some .WEEKLY, some ⟨2024, 5, 20⟩, none, .COMPLETED, "u1", "a1"⟩]⟩
      ⟨2024, 5, 20⟩ "r1" "u1" "n1").1 = .processed "r1" := rfl
  exact processed_nextRecurringDate_after_lastProcessed _ _ _ _ _ _ _
    (by rw [← h1])

/-! ## C2: budget alert cadence -/

/-- C2 (counterexample): the alert condition of `checkBudgetAlert` fires on a
calendar-month change even when `percentageUsed` is below 80 — here usage is
0% yet the condition is true because the last alert was sent in a previous
month. -/
theorem budget_alert_fires_below_threshold_on_month_change :
    budgetAlertCondition (JSNum.num 0) (some ⟨2024, 1, 15⟩) ⟨2024, 2, 15⟩
        = true ∧
      JSNum.geb (JSNum.num 0) (JSNum.num 80) = false := by
  constructor
  · rfl
  · decide

/-- C2 (amended): an alert is sent when `percentageUsed >= 80` and
`lastAlertSent` is null; once an alert has been sent, no further alert is
sent within the same calendar month; and after the month changes, an alert is
sent again regardless of `percentageUsed`. -/
theorem budget_alert_condition_cases (percentageUsed : JSNum)
    (lastAlertSent : Option JSDate) (now : JSDate) :
    (JSNum.geb percentageUsed (JSNum.num 80) = true → lastAlertSent = none →
      budgetAlertCondition percentageUsed lastAlertSent now = true) ∧
    (∀ d, lastAlertSent = some d → d.year = now.year → d.month = now.month →
      budgetAlertCondition percentageUsed lastAlertSent now = false) ∧
    (∀ d, lastAlertSent = some d →
      (d.year ≠ now.year ∨ d.month ≠ now.month) →
      budgetAlertCondition percentageUsed lastAlertSent now = true) := by
  refine ⟨fun hge hnone => ?_, fun d hsome hy hm => ?_, fun d hsome hne => ?_⟩
  · simp [budgetAlertCondition, isNewMonth, hnone]
  · simp [budgetAlertCondition, isNewMonth, hsome, hy, hm]
  · simp only [budgetAlertCondition, isNewMonth, hsome, Bool.or_eq_true,
      decide_eq_true_eq]
    right
    rcases hne with h | h
    · left; exact h
    · right; exact h

/-- C2 (witness for the amended theorem). -/
theorem budget_alert_condition_cases_witness :
    budgetAlertCondition (JSNum.num 90) (some ⟨2024, 5, 1⟩) ⟨2024, 5, 20⟩
        = false ∧
      budgetAlertCondition (JSNum.num 90) none ⟨2024, 5, 20⟩ = true :=
  ⟨(budget_alert_condition_cases (JSNum.num 90) (some ⟨2024, 5, 1⟩)
      ⟨2024, 5, 20⟩).2.1 ⟨2024, 5, 1⟩ rfl rfl rfl,
   (budget_alert_condition_cases (JSNum.num 90) none ⟨2024, 5, 20⟩).1
      (by decide) rfl⟩

/-! ## C8: monthly report batch isolation -/

/-- C8: in `generateMonthlyReports`, a failure while generating insights
(absorbed inside `generateFinancialInsights` by the fallback list) or while
emailing (the send result is ignored) does not abort the processing of the
remaining users: for every combination of per-user AI and email outcomes,
every user's report email is produced and the returned count covers all
users. -/
theorem monthly_report_batch_isolates_failures (s : DBState)
    (users : List ReportUser) (now : JSDate) (ai : ReportUser → AIOutcome)
    (emailResult : ReportUser → EmailOutcome) :
    (generateMonthlyReports s users now ai emailResult).1 = users.length ∧
    (generateMonthlyReports s users now ai emailResult).2.map
        (fun e => e.recipient) = users.map (fun u => u.email) ∧
    (∀ msg, generateFinancialInsights (.error msg) = fallbackInsights) := by
  refine ⟨rfl, ?_, fun _ => rfl⟩
  simp [generateMonthlyReports, List.map_map, Function.comp]

/-! ## C9: `lastAlertSent` updated exactly on email success -/

/-- C9: in the per-budget body of `checkBudgetAlert`, when the alert
condition holds, `lastAlertSent` is updated to now exactly when the email
send reports success; when the send fails or throws, the budget row is left
unchanged. -/
theorem lastAlertSent_updated_iff_email_success (s : DBState) (b : Budget)
    (now : JSDate) (outcome : EmailOutcome) (acct : Account)
    (hacct : s.accounts.find?
        (fun a => decide (a.userId = b.userId) && a.isDefault) = some acct)
    (hcond : budgetAlertCondition
        (percentageUsedOf (monthlyExpenses s b.userId acct.id now) b.amount)
        b.lastAlertSent now = true) :
    (outcome = .success →
      (checkBudgetAlertStep s b now outcome).1 =
        { b with lastAlertSent := some now }) ∧
    (∀ err, outcome = .failure err ∨ outcome = .thrown err →
      (checkBudgetAlertStep s b now outcome).1 = b) := by
  unfold checkBudgetAlertStep
  rw [hacct]
  simp only [hcond, if_true]
  constructor
  · rintro rfl; rfl
  · rintro err (rfl | rfl) <;> rfl

/-- C9 (witness): a concrete budget over a concrete state, checked with a
successful and with a failing send. -/
theorem lastAlertSent_updated_iff_email_success_witness :
    (checkBudgetAlertStep
        ⟨[⟨"a1", "Main", .CURRENT, 100, true, "u1"⟩], []⟩
        ⟨"b1", "u1", 100, none⟩ ⟨2024, 5, 20⟩ .success).1 =
      ⟨"b1", "u1", 100, some ⟨2024, 5, 20⟩⟩ ∧
    (checkBudgetAlertStep
        ⟨[⟨"a1", "Main", .CURRENT, 100, true, "u1"⟩], []⟩
        ⟨"b1", "u1", 100, none⟩ ⟨2024, 5, 20⟩ (.failure "boom")).1 =
      ⟨"b1", "u1", 100, none⟩ :=
  ⟨(lastAlertSent_updated_iff_email_success
      ⟨[⟨"a1", "Main", .CURRENT, 100, true, "u1"⟩], []⟩
      ⟨"b1", "u1", 100, none⟩ ⟨2024, 5, 20⟩ .success
      ⟨"a1", "Main", .CURRENT, 100, true, "u1"⟩ rfl
      (by simp [budgetAlertCondition, isNewMonth])).1 rfl,
   (lastAlertSent_updated_iff_email_success
      ⟨[⟨"a1", "Main", .CURRENT, 100, true, "u1"⟩], []⟩
      ⟨"b1", "u1", 100, none⟩ ⟨2024, 5, 20⟩ (.failure "boom")
      ⟨"a1", "Main", .CURRENT, 100, true, "u1"⟩ rfl
      (by simp [budgetAlertCondition, isNewMonth])).2 "boom" (Or.inl rfl)⟩

/-! ## C10: zero budget yields a non-finite percentage -/

/-- C10: `checkBudgetAlert` divides the month's expenses by the budget amount
with no zero guard: for a budget of amount 0, `percentageUsed` is `Infinity`
when the expenses are positive (and `NaN` when they are 0), the `>= 80` test
still passes on `Infinity`, and with `lastAlertSent` null the alert branch is
taken. -/
theorem zero_budget_percentage_not_finite (s : DBState) (b : Budget)
    (now : JSDate) (acct : Account) (outcome : EmailOutcome)
    (hacct : s.accounts.find?
        (fun a => decide (a.userId = b.userId) && a.isDefault) = some acct)
    (hzero : b.amount = 0) :
    (0 < monthlyExpenses s b.userId acct.id now →
      percentageUsedOf (monthlyExpenses s b.userId acct.id now) b.amount =
          JSNum.posInf ∧
        JSNum.isFinite
          (percentageUsedOf (monthlyExpenses s b.userId acct.id now)
            b.amount) = false ∧
        JSNum.geb
          (percentageUsedOf (monthlyExpenses s b.userId acct.id now) b.amount)
          (JSNum.num 80) = true ∧
        (b.lastAlertSent = none →
          (checkBudgetAlertStep s b now outcome).2 = true)) ∧
    (monthlyExpenses s b.userId acct.id now = 0 →
      percentageUsedOf (monthlyExpenses s b.userId acct.id now) b.amount =
          JSNum.nan ∧
        JSNum.isFinite
          (percentageUsedOf (monthlyExpenses s b.userId acct.id now)
            b.amount) = false) := by
  constructor
  · intro hpos
    have hdiv : JSNum.div (JSNum.num (monthlyExpenses s b.userId acct.id now))
        (JSNum.num b.amount) = JSNum.posInf := by
      simp [JSNum.div, hzero, hpos, not_lt_of_lt hpos]
    have hpct : percentageUsedOf (monthlyExpenses s b.userId acct.id now)
        b.amount = JSNum.posInf := by
      simp [percentageUsedOf, hdiv, JSNum.mul]
    refine ⟨hpct, by simp [hpct, JSNum.isFinite], by simp [hpct, JSNum.geb],
      fun hnone => ?_⟩
    unfold checkBudgetAlertStep
    rw [hacct]
    have hcondtrue : budgetAlertCondition
        (percentageUsedOf (monthlyExpenses s b.userId acct.id now) b.amount)
        b.lastAlertSent now = true := by
      simp [budgetAlertCondition, hpct, hnone, JSNum.geb, isNewMonth]
    simp only [hcondtrue, if_true]
    cases outcome <;> rfl
  · intro hzeroExp
    have hdiv : JSNum.div (JSNum.num (monthlyExpenses s b.userId acct.id now))
        (JSNum.num b.amount) = JSNum.nan := by
      simp [JSNum.div, hzero, hzeroExp]
    have hpct : percentageUsedOf (monthlyExpenses s b.userId acct.id now)
        b.amount = JSNum.nan := by
      simp [percentageUsedOf, hdiv, JSNum.mul]
    exact ⟨hpct, by simp [hpct, JSNum.isFinite]⟩

/-- C10 (witness): a concrete zero-amount budget whose default account has 25
of expenses this month: the percentage is `Infinity` and the alert branch is
taken. -/
theorem zero_budget_percentage_not_finite_witness :
    percentageUsedOf
        (monthlyExpenses
          ⟨[⟨"a1", "Main", .CURRENT, -25, true, "u1"⟩],
           [⟨"t1", .EXPENSE, 25, "Lunch", ⟨2024, 5, 10⟩, "food", false, none,
             none, none, .COMPLETED, "u1", "a1"⟩]⟩
          "u1" "a1" ⟨2024, 5, 20⟩) 0 = JSNum.posInf ∧
    (checkBudgetAlertStep
        ⟨[⟨"a1", "Main", .CURRENT, -25, true, "u1"⟩],
         [⟨"t1", .EXPENSE, 25, "Lunch", ⟨2024, 5, 10⟩, "food", false, none,
           none, none, .COMPLETED, "u1", "a1"⟩]⟩
        ⟨"b1", "u1", 0, none⟩ ⟨2024, 5, 20⟩ .success).2 = true := by
  have hm : monthlyExpenses
      ⟨[⟨"a1", "Main", .CURRENT, -25, true, "u1"⟩],
       [⟨"t1", .EXPENSE, 25, "Lunch", ⟨2024, 5, 10⟩, "food", false, none,
         none, none, .COMPLETED, "u1", "a1"⟩]⟩
      "u1" "a1" ⟨2024, 5, 20⟩ = 25 := by
    norm_num [monthlyExpenses, inCurrentMonth, jsleb, jsltb, daysInMonth,
      isLeapYear]
  have hpos : (0 : ℚ) < monthlyExpenses
      ⟨[⟨"a1", "Main", .CURRENT, -25, true, "u1"⟩],
       [⟨"t1", .EXPENSE, 25, "Lunch", ⟨2024, 5, 10⟩, "food", false, none,
         none, none, .COMPLETED, "u1", "a1"⟩]⟩
      "u1" "a1" ⟨2024, 5, 20⟩ := by rw [hm]; norm_num
  have h := zero_budget_percentage_not_finite
    ⟨[⟨"a1", "Main", .CURRENT, -25, true, "u1"⟩],
     [⟨"t1", .EXPENSE, 25, "Lunch", ⟨2024, 5, 10⟩, "food", false, none,
       none, none, .COMPLETED, "u1", "a1"⟩]⟩
    ⟨"b1", "u1", 0, none⟩ ⟨2024, 5, 20⟩
    ⟨"a1", "Main", .CURRENT, -25, true, "u1"⟩ .success rfl rfl
  exact ⟨(h.1 hpos).1, (h.1 hpos).2.2.2 rfl⟩

end CashNest
